import Mathlib

/-!
# etunnel HTTP tunnel client: `src/proxy/et_http_client.go`

A shallow embedding of the client side of the HTTP tunnel and the properties of
its send pipeline (`processLoop`, `sendData`), receive pipeline (`recvLoop`),
handshake (`createConnection`, `newHTTPClient`) and facade (`destroy`,
`pushTCPRequest`, `popTCPResponse`, `isAlive`, `String`).

Modelling conventions.

* A buffered Go channel is the FIFO list of the values it holds. A channel send
  appends at the tail, a receive removes the head. A receive on an empty channel
  blocks: the step that performs it is not enabled (`none`). The single-slot
  channel `sendNop` (`make(chan *dataBlock, 1)`) keeps its capacity 1, on which
  the code relies through a non-blocking send. For the channels of capacity
  `DataQueueSize` a send is recorded when it completes.
* `sendQsync` never carries a value: it is only closed. It is the flag
  `sendQsyncClosed`.
* A nil pointer is `none`.
* `seq` and `connKey` are `int64`: `seq += 1` wraps modulo `2^64` (`wrap64`).
* The collaborator `hc *http.Client` is a response function `Transport`, given
  the requests made so far and the current request; the field `hc` of the
  client records the requests handed to `hc.Do`, in order.
* `http.NewRequest` is taken to succeed, as the code does (it drops the error).
* A response body is the script of the results its successive `Read` calls
  return; a `Read` past the end of the script returns `0, io.EOF`.
* The two goroutines and the caller interleave: `Sys.step` performs one step of
  one of them, `Sys.run` a whole schedule. The `select` of `processLoop` is
  resolved by the schedule (`selectCase`).
-/

/-- One byte of the tunnelled stream. -/
abbrev Byte := Fin 256

/-- The Go type `dataBlock`: one fragment of the stream. -/
structure dataBlock where
  data : List Byte
deriving DecidableEq, Repr

/-- The error of a `Read` on a response body: `io.EOF` or any other error. -/
inductive ReadErr where
  | EOF
  | other (msg : String)
deriving DecidableEq, Repr

/-- The result `(n, err)` of one `res.Body.Read(buf)`: the `n` bytes written to the
buffer and the error, `none` for a nil error. -/
structure ReadResult where
  data : List Byte
  err : Option ReadErr
deriving DecidableEq, Repr

/-- The Go type `http.Response`, with the fields the client reads. -/
structure Response where
  StatusCode : Int
  Status : String
  Body : List ReadResult
deriving DecidableEq, Repr

/-- The two request paths, `QP_CONNECT` and `QP_DATA`. -/
inductive ReqPath where
  | QP_CONNECT
  | QP_DATA
deriving DecidableEq, Repr

/-- A request as built by `createConnection` and `sendData`: host, path, the query
parameters `QK_CONN_KEY`, `QK_ADDR`, `QK_SEQ` (the integers stand for their decimal
rendering by `strconv.FormatInt`) and the body reader (`none` for a nil body). -/
structure Request where
  Host : String
  Path : ReqPath
  connKey : Int
  addr : Option String
  seq : Option Int
  body : Option (List Byte)
deriving DecidableEq, Repr

/-- The result `(res, err)` of `http.Client.Do`. When `err` is nil the response is
non-nil (the contract of `Do`); with a non-nil `err` the response may be nil or not. -/
inductive DoResult where
  | failed (res : Option Response) (err : String)
  | resp (res : Response)
deriving DecidableEq, Repr

/-- The request transport: the result of `Do`, from the requests made before and the
current request. -/
abbrev Transport := List Request → Request → DoResult

/-- The Go struct `httpClient`. -/
structure httpClient where
  hc : List Request
  host : String
  dest : String
  seq : Int
  connKey : Int
  sendQ : List (Option dataBlock)
  sendQsyncClosed : Bool
  sendNop : List (Option dataBlock)
  respQ : List (Option Response)
  recvQ : List (Option dataBlock)
  alive : Bool
deriving DecidableEq, Repr

/-- The largest `int64`. -/
def maxInt64 : Int := 9223372036854775807

/-- Signed 64-bit wrap-around of Go integer arithmetic. -/
def wrap64 (x : Int) : Int := (x + 9223372036854775808) % 18446744073709551616 - 9223372036854775808

/-- The value `http.StatusOK`. -/
def StatusOK : Int := 200

/-- The error built by `fmt.Errorf("create connection fail, err=[%v] status=[%s]", err, status)`,
kept as its two operands. -/
structure connError where
  err : Option String
  status : String
deriving DecidableEq, Repr

/-- Source `isAlive`, lines 84-86. -/
def httpClient.isAlive (self : httpClient) : Bool := self.alive

/-- Source `destroy`, lines 60-65. `none` is the run-time panic of closing the already
closed `sendQsync`. -/
def httpClient.destroy (self : httpClient) : Option httpClient :=
  let self := { self with alive := false }
  if self.sendQsyncClosed then none
  else
    let self := { self with sendQsyncClosed := true }
    some { self with recvQ := self.recvQ ++ [none] }

/-- Source `pushTCPRequest`, lines 67-69. -/
def httpClient.pushTCPRequest (self : httpClient) (dn : Option dataBlock) : httpClient :=
  { self with sendQ := self.sendQ ++ [dn] }

/-- Source `popTCPResponse`, lines 71-82: the returned `dn` and the state after the call;
`none` when the call is blocked in its second `select` on an empty `recvQ`. -/
def httpClient.popTCPResponse (self : httpClient) : Option (Option dataBlock × httpClient) :=
  let (dn, self) :=
    match self.recvQ with
    | [] => ((none : Option dataBlock), self)
    | x :: q => (x, { self with recvQ := q })
  if dn = none ∧ self.isAlive = true then
    match self.recvQ with
    | [] => none
    | y :: q => some (y, { self with recvQ := q })
  else some (dn, self)

/-- The request of `createConnection`, lines 109-120. -/
def httpClient.connectRequest (self : httpClient) : Request :=
  { Host := self.host, Path := ReqPath.QP_CONNECT, connKey := self.connKey,
    addr := some self.dest, seq := none, body := none }

/-- Source `createConnection`, lines 108-135: the state after the call and the returned
error. -/
def httpClient.createConnection (Do : Transport) (self : httpClient) :
    httpClient × Option connError :=
  let req := self.connectRequest
  let r := Do self.hc req
  let self := { self with hc := self.hc ++ [req] }
  match r with
  | DoResult.failed res err =>
      let status := match res with
        | some res => res.Status
        | none => ""
      ({ self with alive := false }, some { err := some err, status := status })
  | DoResult.resp res =>
      if StatusOK ≠ res.StatusCode then
        ({ self with alive := false }, some { err := none, status := res.Status })
      else (self, none)

/-- The request of `sendData`, lines 139-154, built after `seq` was incremented. -/
def httpClient.dataRequest (self : httpClient) (send_dn : Option dataBlock) : Request :=
  { Host := self.host, Path := ReqPath.QP_DATA, connKey := self.connKey,
    addr := none, seq := some self.seq, body := send_dn.map (fun d => d.data) }

/-- Source `sendData`, lines 137-167. -/
def httpClient.sendData (Do : Transport) (self : httpClient) (send_dn : Option dataBlock) :
    httpClient :=
  let self := { self with seq := wrap64 (self.seq + 1) }
  let req := self.dataRequest send_dn
  let r := Do self.hc req
  let self := { self with hc := self.hc ++ [req] }
  match r with
  | DoResult.failed _ _ => { self with alive := false }
  | DoResult.resp res =>
      if StatusOK ≠ res.StatusCode then { self with alive := false }
      else { self with respQ := self.respQ ++ [some res] }

/-- The case a `select` of `processLoop` takes (lines 91-103). -/
inductive selectCase where
  | sendQ
  | sendNop
  | sendQsync
deriving DecidableEq, Repr

/-- Where the goroutine running `processLoop` stands: before the first statement, at the
head of the `for` loop, or returned. -/
inductive procPC where
  | start
  | loop
  | done
deriving DecidableEq, Repr

/-- Source `processLoop`, lines 88-106, one step at a time. At `start` the trigger is
pre-armed (`self.sendNop <- nil`, blocked while the slot is taken). At `loop` with the
session alive one iteration runs, its `select` taking case `c`, which must be ready; a
`break` leaves the `select` only, so the loop head is reached again. At `loop` with the
session not alive the loop is left, `nil` is sent on `respQ` and the function returns. -/
def httpClient.processLoopStep (Do : Transport) (c : selectCase) :
    procPC × httpClient → Option (procPC × httpClient)
  | (procPC.start, self) =>
      if self.sendNop.length < 1 then
        some (procPC.loop, { self with sendNop := self.sendNop ++ [none] })
      else none
  | (procPC.loop, self) =>
      if self.isAlive = true then
        match c with
        | selectCase.sendQ =>
            match self.sendQ with
            | [] => none
            | dn :: q =>
                let self := { self with sendQ := q }
                match dn with
                | none => some (procPC.loop, self)
                | some d => some (procPC.loop, self.sendData Do (some d))
        | selectCase.sendNop =>
            match self.sendNop with
            | [] => none
            | _ :: q => some (procPC.loop, ({ self with sendNop := q }).sendData Do none)
        | selectCase.sendQsync =>
            if self.sendQsyncClosed = true then some (procPC.loop, self) else none
      else some (procPC.done, { self with respQ := self.respQ ++ [none] })
  | (procPC.done, _) => none

/-- The inner `for` of `recvLoop`, lines 174-194: the blocks sent on `recvQ` while one
response body is read. -/
def readBody : List ReadResult → List dataBlock
  | [] => []
  | r :: rest =>
      let sent : List dataBlock := if r.data.length > 0 then [{ data := r.data }] else []
      match r.err with
      | some _ => sent
      | none => sent ++ readBody rest

/-- Lines 195-200 of `recvLoop`: the non-blocking attempt to arm the idle-poll trigger. -/
def httpClient.armNop (self : httpClient) : httpClient :=
  if 0 = self.respQ.length then
    if self.sendNop.length < 1 then { self with sendNop := self.sendNop ++ [none] }
    else self
  else self

/-- Where the goroutine running `recvLoop` stands: at the `range` over `respQ`, after a
body was read and before line 195, or returned. -/
inductive recvPC where
  | range
  | arm
  | done
deriving DecidableEq, Repr

/-- Source `recvLoop`, lines 169-202, one step at a time. At `range` the next response
is taken (blocked while `respQ` is empty): `nil` breaks the loop and the function
returns, a response has its body read into `recvQ`. At `arm` lines 195-200 run. -/
def httpClient.recvLoopStep : recvPC × httpClient → Option (recvPC × httpClient)
  | (recvPC.range, self) =>
      match self.respQ with
      | [] => none
      | none :: q => some (recvPC.done, { self with respQ := q })
      | some res :: q =>
          some (recvPC.arm,
            { self with respQ := q, recvQ := self.recvQ ++ (readBody res.Body).map some })
  | (recvPC.arm, self) => some (recvPC.range, self.armNop)
  | (recvPC.done, _) => none

/-- The goroutines `newHTTPClient` starts. -/
inductive goroutine where
  | processLoop
  | recvLoop
deriving DecidableEq, Repr

/-- What a call of `newHTTPClient` leaves: the returned interface value (`none` for nil),
the goroutines started, and the state of the object `hc_impl` (`none` had `destroy`
panicked). -/
structure newResult where
  hc : Option httpClient
  started : List goroutine
  hc_impl : Option httpClient
deriving DecidableEq, Repr

/-- The struct literal of `newHTTPClient`, lines 37-49; `now` is
`common.GetCurrentTime()`. -/
def httpClient.fresh (now : Int) (host dest : String) : httpClient :=
  { hc := [], host := host, dest := dest, seq := 0, connKey := now, sendQ := [],
    sendQsyncClosed := false, sendNop := [], recvQ := [], respQ := [], alive := true }

/-- Source `newHTTPClient`, lines 36-58. -/
def newHTTPClient (Do : Transport) (now : Int) (host dest : String) : newResult :=
  let hc_impl := httpClient.fresh now host dest
  match hc_impl.createConnection Do with
  | (hc_impl, some _) => { hc := none, started := [], hc_impl := hc_impl.destroy }
  | (hc_impl, none) =>
      { hc := some hc_impl, started := [goroutine.processLoop, goroutine.recvLoop],
        hc_impl := some hc_impl }

/-- A session with its two goroutines. -/
structure Sys where
  self : httpClient
  proc : procPC
  recv : recvPC
deriving DecidableEq, Repr

/-- The session right after a successful `newHTTPClient`: both goroutines at their first
statement. `none` when `newHTTPClient` returns nil. -/
def Sys.start (Do : Transport) (now : Int) (host dest : String) : Option Sys :=
  match (newHTTPClient Do now host dest).hc with
  | some self => some { self := self, proc := procPC.start, recv := recvPC.range }
  | none => none

/-- One scheduling step: a step of `processLoop` (with the case its `select` takes), a
step of `recvLoop`, or a call of the caller. -/
inductive Event where
  | process (c : selectCase)
  | receive
  | push (dn : Option dataBlock)
  | pop
  | destroy
deriving DecidableEq, Repr

/-- The effect of one event; `none` when the event is blocked (or, for `destroy`,
panics). -/
def Sys.step (Do : Transport) (e : Event) (s : Sys) : Option Sys :=
  match e with
  | Event.process c =>
      match httpClient.processLoopStep Do c (s.proc, s.self) with
      | some (pc, self) => some { s with self := self, proc := pc }
      | none => none
  | Event.receive =>
      match httpClient.recvLoopStep (s.recv, s.self) with
      | some (pc, self) => some { s with self := self, recv := pc }
      | none => none
  | Event.push dn => some { s with self := s.self.pushTCPRequest dn }
  | Event.pop =>
      match s.self.popTCPResponse with
      | some (_, self) => some { s with self := self }
      | none => none
  | Event.destroy =>
      match s.self.destroy with
      | some self => some { s with self := self }
      | none => none

/-- A schedule, event after event. -/
def Sys.run (Do : Transport) : List Event → Sys → Option Sys
  | [], s => some s
  | e :: es, s =>
      match Sys.step Do e s with
      | some s1 => Sys.run Do es s1
      | none => none

/-- The data requests (path `QP_DATA`) made so far, in the order they were issued. -/
def httpClient.dataRequests (self : httpClient) : List Request :=
  self.hc.filter (fun r => r.Path = ReqPath.QP_DATA)

/-- The bodies of the fragment-bearing data requests made so far. -/
def httpClient.sentBodies (self : httpClient) : List (List Byte) :=
  self.dataRequests.filterMap (fun r => r.body)

/-- The number of idle polls (data requests with a nil body) made so far. -/
def httpClient.polls (self : httpClient) : Nat :=
  (self.dataRequests.filter (fun r => r.body = none)).length

/-- The non-nil fragments of a queue, as byte strings. -/
def fragments (q : List (Option dataBlock)) : List (List Byte) :=
  q.filterMap (fun dn => dn.map (fun d => d.data))

/-- The fragments the caller pushes during a schedule, nil included. -/
def pushed : List Event → List (Option dataBlock)
  | [] => []
  | Event.push dn :: es => dn :: pushed es
  | _ :: es => pushed es

/-- Whether event `e` in state `s` is an arming of the idle-poll trigger that succeeds:
the pre-arming of `processLoop`, or lines 195-200 of `recvLoop` with `respQ` empty and
the slot free. -/
def Sys.arms (e : Event) (s : Sys) : Bool :=
  match e with
  | Event.process _ => decide (s.proc = procPC.start ∧ s.self.sendNop.length < 1)
  | Event.receive =>
      decide (s.recv = recvPC.arm ∧ s.self.respQ.length = 0 ∧ s.self.sendNop.length < 1)
  | _ => false

/-- Whether no arming of the trigger succeeds along a schedule. -/
def Sys.noArm (Do : Transport) : List Event → Sys → Bool
  | [], _ => true
  | e :: es, s =>
      match Sys.step Do e s with
      | some s1 => !Sys.arms e s && Sys.noArm Do es s1
      | none => true

/-- The calls `popTCPResponse` made one after the other, `n` times: the values returned,
and the state after; `none` as soon as one call blocks. -/
def httpClient.popN : Nat → httpClient → Option (List (Option dataBlock) × httpClient)
  | 0, self => some ([], self)
  | n + 1, self =>
      match self.popTCPResponse with
      | none => none
      | some (dn, self1) =>
          match httpClient.popN n self1 with
          | none => none
          | some (dns, self2) => some (dn :: dns, self2)

/-- Source `String`, lines 204-207; `this` is the rendering of the pointer (`%p`). -/
def httpClient.String (this : String) (self : httpClient) : String :=
  "this=" ++ this ++ " host=[" ++ self.host ++ "] dest=[" ++ self.dest ++ "] seq=" ++ toString self.seq
    ++ " connKey=" ++ toString self.connKey ++ " alive=" ++ toString self.alive
    ++ " sendQLen=" ++ toString self.sendQ.length ++ " respQLen=" ++ toString self.respQ.length
    ++ " recvQLen=" ++ toString self.recvQ.length

/-- The connect request of a session comes back with a nil error and status 200. -/
def connectOK (Do : Transport) (self : httpClient) : Prop :=
  ∃ res, Do self.hc self.connectRequest = DoResult.resp res ∧ res.StatusCode = 200

/-- A transport that answers every request with status 200 and an empty body. -/
def okTransport : Transport :=
  fun _ _ => DoResult.resp { StatusCode := 200, Status := "200 OK", Body := [] }

/-- The sequence numbers on the wire follow the counter: `seq` is the `int64` count of
the data requests made, and the request at position `k` carries the count `k + 1`. -/
def httpClient.seqInv (self : httpClient) : Prop :=
  self.seq = wrap64 self.dataRequests.length
    ∧ ∀ (k : Nat) (r : Request), self.dataRequests[k]? = some r →
        r.seq = some (wrap64 ((k : Int) + 1))

/-- The fragment of the end-to-end scenario, bytes `0x41 0x42`. -/
def demoFragment : dataBlock := { data := [0x41, 0x42] }

/-- A session created against `okTransport`. -/
def demoStart : Sys :=
  (Sys.start okTransport 7 "proxy:80" "10.0.0.5:22").getD
    { self := httpClient.fresh 7 "proxy:80" "10.0.0.5:22", proc := procPC.done,
      recv := recvPC.done }

/-- A schedule: the caller pushes `demoFragment`, `processLoop` pre-arms the trigger, and
its first `select`, with both the trigger and the fragment ready, takes the trigger; its
second takes the fragment. -/
def demoEvents : List Event :=
  [Event.push (some demoFragment), Event.process selectCase.sendNop,
   Event.process selectCase.sendNop, Event.process selectCase.sendQ]

/-- The session after `demoEvents`. -/
def demoEnd : Sys := (Sys.run okTransport demoEvents demoStart).getD demoStart

/-- A session whose `respQ` holds the termination sentinel and whose `recvQ` holds one
fragment. -/
def demoSentinel : httpClient :=
  { httpClient.fresh 7 "proxy:80" "10.0.0.5:22" with
    respQ := [none], recvQ := [some { data := [0x9A] }] }

/-- A transport that accepts the connect request and fails every data request. -/
def failTransport : Transport :=
  fun _ r =>
    match r.Path with
    | ReqPath.QP_CONNECT => DoResult.resp { StatusCode := 200, Status := "200 OK", Body := [] }
    | ReqPath.QP_DATA => DoResult.failed none "connection refused"

/-- A transport that refuses the connect request with status 502. -/
def refuseTransport : Transport :=
  fun _ _ => DoResult.resp { StatusCode := 502, Status := "502 Bad Gateway", Body := [] }

/-- The reads of a response body before its last: `[1, 2]`, then nothing. -/
def demoReads : List ReadResult := [{ data := [1, 2], err := none }, { data := [], err := none }]

/-- The last read of that body: `[3]` with `io.EOF`. -/
def demoLastRead : ReadResult := { data := [3], err := some ReadErr.EOF }

/-- A session created against `failTransport`. -/
def demoFailStart : Sys :=
  (Sys.start failTransport 7 "proxy:80" "10.0.0.5:22").getD
    { self := httpClient.fresh 7 "proxy:80" "10.0.0.5:22", proc := procPC.done,
      recv := recvPC.done }

/-- That session at the head of the loop of `processLoop`, with `demoFragment` in `sendQ`,
the trigger armed, and one inbound fragment waiting in `recvQ`. -/
def demoLoop : httpClient :=
  { ((Sys.run failTransport
        [Event.push (some demoFragment), Event.process selectCase.sendNop]
        demoFailStart).getD demoFailStart).self with
    recvQ := [some { data := [0x9A, 0x9B] }] }

/-- The session `demoLoop` after the iteration of `processLoop` that takes the fragment
and fails to send it. -/
def demoFailed : httpClient :=
  ({ demoLoop with sendQ := [] }).sendData failTransport (some demoFragment)

/-! ## `sendData` and `createConnection` -/

theorem wrap64_succ (x : Int) (h1 : -9223372036854775808 ≤ x) (h2 : x < maxInt64) :
    wrap64 (x + 1) = x + 1 := by
  unfold wrap64
  unfold maxInt64 at h2
  omega

theorem sendData_seq (Do : Transport) (self : httpClient) (dn : Option dataBlock) :
    (self.sendData Do dn).seq = wrap64 (self.seq + 1) := by
  unfold httpClient.sendData
  dsimp only
  split
  · rfl
  · split <;> rfl

theorem sendData_hc (Do : Transport) (self : httpClient) (dn : Option dataBlock) :
    (self.sendData Do dn).hc
      = self.hc ++ [({ self with seq := wrap64 (self.seq + 1) }).dataRequest dn] := by
  unfold httpClient.sendData
  dsimp only
  split
  · rfl
  · split <;> rfl

theorem sendData_frame (Do : Transport) (self : httpClient) (dn : Option dataBlock) :
    (self.sendData Do dn).host = self.host ∧ (self.sendData Do dn).dest = self.dest
      ∧ (self.sendData Do dn).connKey = self.connKey
      ∧ (self.sendData Do dn).sendQ = self.sendQ
      ∧ (self.sendData Do dn).sendNop = self.sendNop
      ∧ (self.sendData Do dn).recvQ = self.recvQ
      ∧ (self.sendData Do dn).sendQsyncClosed = self.sendQsyncClosed := by
  unfold httpClient.sendData
  dsimp only
  split
  · simp
  · split <;> simp

theorem sendData_alive_false (Do : Transport) (self : httpClient) (dn : Option dataBlock)
    (h : self.alive = false) : (self.sendData Do dn).alive = false := by
  unfold httpClient.sendData
  dsimp only
  split
  · rfl
  · split
    · rfl
    · exact h

/-- C3. For every session state and every fragment-or-nil argument, `sendData` moves `seq`
to the `int64` successor of its value, which is `seq + 1` for every `int64` below the
maximum; when the transport returns an error, or a status other than 200, `alive`
becomes false and `respQ` is unchanged; when it returns no error and status 200, that
response is appended at the tail of `respQ` and `alive` is unchanged; `host`, `dest` and
`connKey` are unchanged in both cases. -/
theorem sendData_contract (Do : Transport) (self : httpClient) (send_dn : Option dataBlock) :
    (self.sendData Do send_dn).seq = wrap64 (self.seq + 1)
    ∧ (-9223372036854775808 ≤ self.seq ∧ self.seq < maxInt64 →
        (self.sendData Do send_dn).seq = self.seq + 1)
    ∧ (∀ res err,
        Do self.hc (({ self with seq := wrap64 (self.seq + 1) }).dataRequest send_dn)
          = DoResult.failed res err →
        (self.sendData Do send_dn).alive = false
          ∧ (self.sendData Do send_dn).respQ = self.respQ)
    ∧ (∀ res,
        Do self.hc (({ self with seq := wrap64 (self.seq + 1) }).dataRequest send_dn)
          = DoResult.resp res → res.StatusCode ≠ 200 →
        (self.sendData Do send_dn).alive = false
          ∧ (self.sendData Do send_dn).respQ = self.respQ)
    ∧ (∀ res,
        Do self.hc (({ self with seq := wrap64 (self.seq + 1) }).dataRequest send_dn)
          = DoResult.resp res → res.StatusCode = 200 →
        (self.sendData Do send_dn).respQ = self.respQ ++ [some res]
          ∧ (self.sendData Do send_dn).alive = self.alive)
    ∧ (self.sendData Do send_dn).host = self.host
    ∧ (self.sendData Do send_dn).dest = self.dest
    ∧ (self.sendData Do send_dn).connKey = self.connKey := by
  refine ⟨sendData_seq Do self send_dn, ?_, ?_, ?_, ?_, (sendData_frame Do self send_dn).1,
    (sendData_frame Do self send_dn).2.1, (sendData_frame Do self send_dn).2.2.1⟩
  · intro h
    rw [sendData_seq, wrap64_succ _ h.1 h.2]
  · intro res err h
    unfold httpClient.sendData
    dsimp only
    rw [h]
    exact ⟨rfl, rfl⟩
  · intro res h hs
    unfold httpClient.sendData
    dsimp only
    rw [h]
    have : StatusOK ≠ res.StatusCode := fun e => hs (by rw [← e]; rfl)
    simp [this]
  · intro res h hs
    unfold httpClient.sendData
    dsimp only
    rw [h]
    have : StatusOK = res.StatusCode := by rw [hs]; rfl
    simp [this]

/-- C3, at a concrete input: a fresh session and a transport that answers 200. -/
theorem sendData_contract_witness :
    (-9223372036854775808 ≤ (httpClient.fresh 7 "proxy:80" "10.0.0.5:22").seq
      ∧ (httpClient.fresh 7 "proxy:80" "10.0.0.5:22").seq < maxInt64)
    ∧ ((httpClient.fresh 7 "proxy:80" "10.0.0.5:22").sendData okTransport none).seq
        = (httpClient.fresh 7 "proxy:80" "10.0.0.5:22").seq + 1 :=
  ⟨by decide,
   (sendData_contract okTransport (httpClient.fresh 7 "proxy:80" "10.0.0.5:22") none).2.1
     (by decide)⟩

theorem createConnection_hc (Do : Transport) (self : httpClient) :
    (self.createConnection Do).1.hc = self.hc ++ [self.connectRequest] := by
  unfold httpClient.createConnection
  dsimp only
  split
  · rfl
  · split <;> rfl

theorem createConnection_frame (Do : Transport) (self : httpClient) :
    (self.createConnection Do).1.host = self.host
      ∧ (self.createConnection Do).1.dest = self.dest
      ∧ (self.createConnection Do).1.connKey = self.connKey
      ∧ (self.createConnection Do).1.seq = self.seq
      ∧ (self.createConnection Do).1.sendQ = self.sendQ
      ∧ (self.createConnection Do).1.sendNop = self.sendNop
      ∧ (self.createConnection Do).1.respQ = self.respQ
      ∧ (self.createConnection Do).1.recvQ = self.recvQ
      ∧ (self.createConnection Do).1.sendQsyncClosed = self.sendQsyncClosed := by
  unfold httpClient.createConnection
  dsimp only
  split
  · simp
  · split <;> simp

theorem createConnection_err_iff (Do : Transport) (self : httpClient) :
    (self.createConnection Do).2 = none ↔ connectOK Do self := by
  unfold httpClient.createConnection connectOK
  dsimp only
  split
  · rename_i res err h
    simp [h]
  · rename_i res h
    by_cases hs : StatusOK = res.StatusCode
    · have h200 : res.StatusCode = 200 := by rw [← hs]; rfl
      simp [hs, h, h200]
    · have h200 : ¬ res.StatusCode = 200 := fun e => hs (by rw [e]; rfl)
      simp [hs, h, h200]

theorem createConnection_alive (Do : Transport) (self : httpClient) :
    (self.createConnection Do).1.alive
      = (self.alive && decide ((self.createConnection Do).2 = none)) := by
  unfold httpClient.createConnection
  dsimp only
  split
  · simp
  · split <;> simp

/-- C4. `createConnection` returns a non-nil error exactly when the connect request does
not come back with a nil transport error and status 200, and then `alive` is false on
return; `newHTTPClient` returns a non-nil handle exactly when `createConnection` returned
no error, the handle then has `alive = true` and `seq = 0` and both pipelines were
started; otherwise it returns nil and starts no goroutine. -/
theorem establishment_iff (Do : Transport) (now : Int) (host dest : String)
    (self : httpClient) :
    ((self.createConnection Do).2 ≠ none ↔ ¬ connectOK Do self)
    ∧ ((self.createConnection Do).2 ≠ none → (self.createConnection Do).1.alive = false)
    ∧ ((newHTTPClient Do now host dest).hc ≠ none
        ↔ ((httpClient.fresh now host dest).createConnection Do).2 = none)
    ∧ (∀ h, (newHTTPClient Do now host dest).hc = some h →
        h.alive = true ∧ h.seq = 0
          ∧ (newHTTPClient Do now host dest).started
              = [goroutine.processLoop, goroutine.recvLoop])
    ∧ ((newHTTPClient Do now host dest).hc = none →
        (newHTTPClient Do now host dest).started = []) := by
  refine ⟨?_, ?_, ?_, ?_, ?_⟩
  · rw [Ne, createConnection_err_iff]
  · intro h
    rw [createConnection_alive]
    simp [h]
  · unfold newHTTPClient
    dsimp only
    split
    · rename_i hc_impl e heq
      simp [heq]
    · rename_i hc_impl heq
      simp [heq]
  · intro h
    unfold newHTTPClient
    dsimp only
    split
    · rename_i hc_impl e heq
      simp
    · rename_i hc_impl heq
      intro hh
      simp only [Option.some.injEq] at hh
      subst hh
      have ha := createConnection_alive Do (httpClient.fresh now host dest)
      have hf := (createConnection_frame Do (httpClient.fresh now host dest)).2.2.2.1
      rw [heq] at ha hf
      simp only at ha hf
      refine ⟨?_, ?_, rfl⟩
      · rw [ha]; rfl
      · rw [hf]; rfl
  · unfold newHTTPClient
    dsimp only
    split
    · intro _; rfl
    · intro hh; simp at hh

/-! ## The steps of the two goroutines and of the caller -/

theorem processLoopStep_cases (Do : Transport) (c : selectCase) (pc pc1 : procPC)
    (self self1 : httpClient)
    (h : httpClient.processLoopStep Do c (pc, self) = some (pc1, self1)) :
    (pc = procPC.start ∧ pc1 = procPC.loop ∧ self.sendNop.length < 1
        ∧ self1 = { self with sendNop := self.sendNop ++ [none] })
    ∨ (pc = procPC.loop ∧ pc1 = procPC.loop ∧ self.alive = true
        ∧ ∃ q, self.sendQ = none :: q ∧ self1 = { self with sendQ := q })
    ∨ (pc = procPC.loop ∧ pc1 = procPC.loop ∧ self.alive = true
        ∧ ∃ d q, self.sendQ = some d :: q
            ∧ self1 = ({ self with sendQ := q }).sendData Do (some d))
    ∨ (pc = procPC.loop ∧ pc1 = procPC.loop ∧ self.alive = true
        ∧ ∃ x q, self.sendNop = x :: q
            ∧ self1 = ({ self with sendNop := q }).sendData Do none)
    ∨ (pc = procPC.loop ∧ pc1 = procPC.loop ∧ self.alive = true
        ∧ self.sendQsyncClosed = true ∧ self1 = self)
    ∨ (pc = procPC.loop ∧ pc1 = procPC.done ∧ self.alive = false
        ∧ self1 = { self with respQ := self.respQ ++ [none] }) := by
  cases pc with
  | start =>
      left
      unfold httpClient.processLoopStep at h
      by_cases hl : self.sendNop.length < 1
      · simp only [hl, if_true, Option.some.injEq, Prod.mk.injEq] at h
        exact ⟨rfl, h.1.symm, hl, h.2.symm⟩
      · simp [hl] at h
  | done => simp [httpClient.processLoopStep] at h
  | loop =>
      right
      unfold httpClient.processLoopStep at h
      cases ha : self.alive with
      | false =>
          simp only [httpClient.isAlive, ha, Bool.false_eq_true, if_false, Option.some.injEq,
            Prod.mk.injEq] at h
          right; right; right; right
          exact ⟨rfl, h.1.symm, rfl, h.2.symm⟩
      | true =>
          simp only [httpClient.isAlive, ha, if_true] at h
          cases c with
          | sendQ =>
              cases hq : self.sendQ with
              | nil => simp [hq] at h
              | cons dn q =>
                  cases dn with
                  | none =>
                      simp only [hq, Option.some.injEq, Prod.mk.injEq] at h
                      left
                      exact ⟨rfl, h.1.symm, rfl, q, rfl, h.2.symm⟩
                  | some d =>
                      simp only [hq, Option.some.injEq, Prod.mk.injEq] at h
                      right; left
                      exact ⟨rfl, h.1.symm, rfl, d, q, rfl, h.2.symm⟩
          | sendNop =>
              cases hq : self.sendNop with
              | nil => simp [hq] at h
              | cons x q =>
                  simp only [hq, Option.some.injEq, Prod.mk.injEq] at h
                  right; right; left
                  exact ⟨rfl, h.1.symm, rfl, x, q, rfl, h.2.symm⟩
          | sendQsync =>
              by_cases hc : self.sendQsyncClosed = true
              · simp only [hc, if_true, Option.some.injEq, Prod.mk.injEq] at h
                right; right; right; left
                exact ⟨rfl, h.1.symm, rfl, hc, h.2.symm⟩
              · simp [hc] at h

theorem recvLoopStep_cases (pc pc1 : recvPC) (self self1 : httpClient)
    (h : httpClient.recvLoopStep (pc, self) = some (pc1, self1)) :
    (pc = recvPC.range ∧ pc1 = recvPC.done
        ∧ ∃ q, self.respQ = none :: q ∧ self1 = { self with respQ := q })
    ∨ (pc = recvPC.range ∧ pc1 = recvPC.arm
        ∧ ∃ res q, self.respQ = some res :: q
            ∧ self1 = { self with respQ := q,
                                  recvQ := self.recvQ ++ (readBody res.Body).map some })
    ∨ (pc = recvPC.arm ∧ pc1 = recvPC.range ∧ self1 = self.armNop) := by
  cases pc with
  | done => simp [httpClient.recvLoopStep] at h
  | arm =>
      simp only [httpClient.recvLoopStep, Option.some.injEq, Prod.mk.injEq] at h
      right; right
      exact ⟨rfl, h.1.symm, h.2.symm⟩
  | range =>
      unfold httpClient.recvLoopStep at h
      cases hq : self.respQ with
      | nil => simp [hq] at h
      | cons x q =>
          cases x with
          | none =>
              simp only [hq, Option.some.injEq, Prod.mk.injEq] at h
              left
              exact ⟨rfl, h.1.symm, q, rfl, h.2.symm⟩
          | some res =>
              simp only [hq, Option.some.injEq, Prod.mk.injEq] at h
              right; left
              exact ⟨rfl, h.1.symm, res, q, rfl, h.2.symm⟩

theorem popTCPResponse_cases (self self1 : httpClient) (dn : Option dataBlock)
    (h : self.popTCPResponse = some (dn, self1)) :
    ∃ q, self1 = { self with recvQ := q } ∧ ∃ taken, self.recvQ = taken ++ q := by
  unfold httpClient.popTCPResponse at h
  cases hq : self.recvQ with
  | nil =>
      simp only [hq] at h
      split at h
      · simp [hq] at h
      · simp only [Option.some.injEq, Prod.mk.injEq] at h
        refine ⟨[], ?_, [], rfl⟩
        rw [← h.2, ← hq]
  | cons x q =>
      simp only [hq] at h
      split at h
      · cases hq2 : q with
        | nil => simp [hq2] at h
        | cons y q2 =>
            simp only [hq2, Option.some.injEq, Prod.mk.injEq] at h
            exact ⟨q2, h.2.symm, [x, y], rfl⟩
      · simp only [Option.some.injEq, Prod.mk.injEq] at h
        exact ⟨q, h.2.symm, [x], rfl⟩

theorem destroy_cases (self self1 : httpClient) (h : self.destroy = some self1) :
    self.sendQsyncClosed = false
      ∧ self1 = { self with alive := false, sendQsyncClosed := true,
                            recvQ := self.recvQ ++ [none] } := by
  unfold httpClient.destroy at h
  cases hc : self.sendQsyncClosed with
  | true => simp [hc] at h
  | false =>
      simp only [hc, Bool.false_eq_true, if_false, Option.some.injEq] at h
      exact ⟨rfl, h.symm⟩

theorem Sys.step_cases (Do : Transport) (e : Event) (s s1 : Sys)
    (h : Sys.step Do e s = some s1) :
    (∃ c, e = Event.process c ∧ s1.recv = s.recv
        ∧ httpClient.processLoopStep Do c (s.proc, s.self) = some (s1.proc, s1.self))
    ∨ (e = Event.receive ∧ s1.proc = s.proc
        ∧ httpClient.recvLoopStep (s.recv, s.self) = some (s1.recv, s1.self))
    ∨ (∃ dn, e = Event.push dn ∧ s1.proc = s.proc ∧ s1.recv = s.recv
        ∧ s1.self = s.self.pushTCPRequest dn)
    ∨ (e = Event.pop ∧ s1.proc = s.proc ∧ s1.recv = s.recv
        ∧ ∃ dn, s.self.popTCPResponse = some (dn, s1.self))
    ∨ (e = Event.destroy ∧ s1.proc = s.proc ∧ s1.recv = s.recv
        ∧ s.self.destroy = some s1.self) := by
  cases e with
  | process c =>
      left
      unfold Sys.step at h
      dsimp only at h
      split at h
      · rename_i pc self heq
        simp only [Option.some.injEq] at h
        subst h
        exact ⟨c, rfl, rfl, heq⟩
      · simp at h
  | receive =>
      right; left
      unfold Sys.step at h
      dsimp only at h
      split at h
      · rename_i pc self heq
        simp only [Option.some.injEq] at h
        subst h
        exact ⟨rfl, rfl, heq⟩
      · simp at h
  | push dn =>
      right; right; left
      simp only [Sys.step, Option.some.injEq] at h
      subst h
      exact ⟨dn, rfl, rfl, rfl, rfl⟩
  | pop =>
      right; right; right; left
      unfold Sys.step at h
      dsimp only at h
      split at h
      · rename_i dn self heq
        simp only [Option.some.injEq] at h
        subst h
        exact ⟨rfl, rfl, rfl, dn, heq⟩
      · simp at h
  | destroy =>
      right; right; right; right
      unfold Sys.step at h
      dsimp only at h
      split at h
      · rename_i self heq
        simp only [Option.some.injEq] at h
        subst h
        exact ⟨rfl, rfl, rfl, heq⟩
      · simp at h

/-- A property of the client state that every step of every party keeps, given that the
steps which do not call `sendData` keep it when they leave the named fields alone. -/
theorem Sys.step_induct (Do : Transport) (P : httpClient → Prop)
    (hsendNop : ∀ self q, P self → P { self with sendNop := q })
    (hsendQ : ∀ self q, P self → P { self with sendQ := q })
    (hrespQ : ∀ self q, P self → P { self with respQ := q })
    (hrecvQ : ∀ self q, P self → P { self with recvQ := q })
    (hdestroy : ∀ self, P self → P { self with alive := false, sendQsyncClosed := true })
    (hsend : ∀ self dn, self.alive = true → P self → P (self.sendData Do dn))
    (e : Event) (s s1 : Sys) (h : Sys.step Do e s = some s1) (hP : P s.self) :
    P s1.self := by
  rcases Sys.step_cases Do e s s1 h with ⟨c, -, -, hp⟩ | ⟨-, -, hr⟩ | ⟨dn, -, -, -, hs⟩
    | ⟨-, -, -, dn, hpop⟩ | ⟨-, -, -, hd⟩
  · rcases processLoopStep_cases Do c _ _ _ _ hp with ⟨-, -, -, h1⟩ | ⟨-, -, -, q, -, h1⟩
      | ⟨-, -, ha, d, q, -, h1⟩ | ⟨-, -, ha, x, q, -, h1⟩ | ⟨-, -, -, -, h1⟩ | ⟨-, -, -, h1⟩
    · rw [h1]; exact hsendNop _ _ hP
    · rw [h1]; exact hsendQ _ _ hP
    · rw [h1]; exact hsend _ _ ha (hsendQ _ _ hP)
    · rw [h1]; exact hsend _ _ ha (hsendNop _ _ hP)
    · rw [h1]; exact hP
    · rw [h1]; exact hrespQ _ _ hP
  · rcases recvLoopStep_cases _ _ _ _ hr with ⟨-, -, q, -, h1⟩ | ⟨-, -, res, q, -, h1⟩
      | ⟨-, -, h1⟩
    · rw [h1]; exact hrespQ _ _ hP
    · rw [h1]; exact hrecvQ _ _ (hrespQ _ q hP)
    · rw [h1]
      unfold httpClient.armNop
      split
      · split
        · exact hsendNop _ _ hP
        · exact hP
      · exact hP
  · rw [hs]; exact hsendQ _ _ hP
  · obtain ⟨q, h1, -⟩ := popTCPResponse_cases _ _ _ hpop
    rw [h1]; exact hrecvQ _ _ hP
  · obtain ⟨-, h1⟩ := destroy_cases _ _ hd
    rw [h1]
    exact hrecvQ _ _ (hdestroy _ hP)

theorem Sys.run_induct (Do : Transport) (P : httpClient → Prop)
    (hstep : ∀ e s s1, Sys.step Do e s = some s1 → P s.self → P s1.self)
    (evs : List Event) (s s1 : Sys) (h : Sys.run Do evs s = some s1) (hP : P s.self) :
    P s1.self := by
  induction evs generalizing s with
  | nil =>
      simp only [Sys.run, Option.some.injEq] at h
      subst h
      exact hP
  | cons e es ih =>
      unfold Sys.run at h
      split at h
      · rename_i s2 heq
        exact ih s2 h (hstep e s s2 heq hP)
      · simp at h

/-! ## Invariants of a session -/

theorem wrap64_wrap64_succ (x : Int) : wrap64 (wrap64 x + 1) = wrap64 (x + 1) := by
  unfold wrap64
  omega

theorem wrap64_id (x : Int) (h1 : -9223372036854775808 ≤ x) (h2 : x ≤ maxInt64) :
    wrap64 x = x := by
  unfold wrap64
  unfold maxInt64 at h2
  omega

theorem sendData_dataRequests (Do : Transport) (self : httpClient) (dn : Option dataBlock) :
    (self.sendData Do dn).dataRequests
      = self.dataRequests ++ [({ self with seq := wrap64 (self.seq + 1) }).dataRequest dn] := by
  unfold httpClient.dataRequests
  rw [sendData_hc, List.filter_append]
  simp [httpClient.dataRequest]

theorem seqInv_sendData (Do : Transport) (self : httpClient) (dn : Option dataBlock)
    (h : self.seqInv) : (self.sendData Do dn).seqInv := by
  obtain ⟨h1, h2⟩ := h
  unfold httpClient.seqInv
  rw [sendData_dataRequests, sendData_seq]
  constructor
  · rw [h1, wrap64_wrap64_succ]
    simp
  · intro k r hk
    by_cases hlt : k < self.dataRequests.length
    · rw [List.getElem?_append_left hlt] at hk
      exact h2 k r hk
    · have hge : self.dataRequests.length ≤ k := Nat.le_of_not_lt hlt
      rw [List.getElem?_append_right hge] at hk
      cases hkk : k - self.dataRequests.length with
      | zero =>
          rw [hkk] at hk
          simp only [List.getElem?_cons_zero, Option.some.injEq] at hk
          rw [← hk]
          have : k = self.dataRequests.length := by omega
          simp only [httpClient.dataRequest, Option.some.injEq]
          rw [h1, wrap64_wrap64_succ, this]
      | succ n =>
          rw [hkk] at hk
          simp at hk

theorem seqInv_step (Do : Transport) (e : Event) (s s1 : Sys)
    (h : Sys.step Do e s = some s1) (hP : s.self.seqInv) : s1.self.seqInv :=
  Sys.step_induct Do httpClient.seqInv (fun _ _ hp => hp) (fun _ _ hp => hp)
    (fun _ _ hp => hp) (fun _ _ hp => hp) (fun _ hp => hp)
    (fun self dn _ hp => seqInv_sendData Do self dn hp) e s s1 h hP

theorem start_cases (Do : Transport) (now : Int) (host dest : String) (s0 : Sys)
    (h : Sys.start Do now host dest = some s0) :
    s0.proc = procPC.start ∧ s0.recv = recvPC.range
      ∧ s0.self = ((httpClient.fresh now host dest).createConnection Do).1
      ∧ ((httpClient.fresh now host dest).createConnection Do).2 = none := by
  unfold Sys.start newHTTPClient at h
  dsimp only at h
  split at h
  · rename_i self heq
    split at heq
    · simp at heq
    · rename_i hc_impl hcc
      simp only [Option.some.injEq] at heq h
      subst h
      rw [hcc]
      exact ⟨rfl, rfl, heq.symm, rfl⟩
  · simp at h

theorem start_fields (Do : Transport) (now : Int) (host dest : String) (s0 : Sys)
    (h : Sys.start Do now host dest = some s0) :
    s0.proc = procPC.start ∧ s0.recv = recvPC.range
      ∧ s0.self.hc = [(httpClient.fresh now host dest).connectRequest]
      ∧ s0.self.seq = 0 ∧ s0.self.alive = true ∧ s0.self.sendQ = []
      ∧ s0.self.sendNop = [] ∧ s0.self.respQ = [] ∧ s0.self.recvQ = []
      ∧ s0.self.sendQsyncClosed = false ∧ s0.self.host = host ∧ s0.self.dest = dest
      ∧ s0.self.connKey = now := by
  obtain ⟨h1, h2, h3, h4⟩ := start_cases Do now host dest s0 h
  have hf := createConnection_frame Do (httpClient.fresh now host dest)
  have ha := createConnection_alive Do (httpClient.fresh now host dest)
  have hh := createConnection_hc Do (httpClient.fresh now host dest)
  rw [← h3] at hf ha hh
  rw [h4] at ha
  obtain ⟨f1, f2, f3, f4, f5, f6, f7, f8, f9⟩ := hf
  refine ⟨h1, h2, ?_, ?_, ?_, ?_, ?_, ?_, ?_, ?_, ?_, ?_, ?_⟩
  · rw [hh]; rfl
  · rw [f4]; rfl
  · rw [ha]; rfl
  · rw [f5]; rfl
  · rw [f6]; rfl
  · rw [f7]; rfl
  · rw [f8]; rfl
  · rw [f9]; rfl
  · rw [f1]; rfl
  · rw [f2]; rfl
  · rw [f3]; rfl

theorem start_dataRequests (Do : Transport) (now : Int) (host dest : String) (s0 : Sys)
    (h : Sys.start Do now host dest = some s0) : s0.self.dataRequests = [] := by
  have hf := start_fields Do now host dest s0 h
  unfold httpClient.dataRequests
  rw [hf.2.2.1]
  simp [httpClient.connectRequest]

theorem seqInv_start (Do : Transport) (now : Int) (host dest : String) (s0 : Sys)
    (h : Sys.start Do now host dest = some s0) : s0.self.seqInv := by
  have hf := start_fields Do now host dest s0 h
  have hd := start_dataRequests Do now host dest s0 h
  unfold httpClient.seqInv
  rw [hd, hf.2.2.2.1]
  constructor
  · decide
  · intro k r hk
    simp at hk

theorem sendData_sentBodies (Do : Transport) (self : httpClient) (dn : Option dataBlock) :
    (self.sendData Do dn).sentBodies = self.sentBodies ++ fragments [dn] := by
  unfold httpClient.sentBodies
  rw [sendData_dataRequests, List.filterMap_append]
  cases dn <;> simp [httpClient.dataRequest, fragments]

theorem sendData_polls (Do : Transport) (self : httpClient) (dn : Option dataBlock) :
    (self.sendData Do dn).polls = self.polls + (if dn = none then 1 else 0) := by
  unfold httpClient.polls
  rw [sendData_dataRequests, List.filter_append, List.length_append]
  cases dn <;> simp [httpClient.dataRequest]

theorem fragments_step (Do : Transport) (e : Event) (s s1 : Sys)
    (h : Sys.step Do e s = some s1) :
    s1.self.sentBodies ++ fragments s1.self.sendQ
      = s.self.sentBodies ++ fragments s.self.sendQ ++ fragments (pushed [e]) := by
  rcases Sys.step_cases Do e s s1 h with ⟨c, he, -, hp⟩ | ⟨he, -, hr⟩ | ⟨dn, he, -, -, hs⟩
    | ⟨he, -, -, dn, hpop⟩ | ⟨he, -, -, hd⟩
  · subst he
    rcases processLoopStep_cases Do c _ _ _ _ hp with ⟨-, -, -, h1⟩ | ⟨-, -, -, q, hq, h1⟩
      | ⟨-, -, ha, d, q, hq, h1⟩ | ⟨-, -, ha, x, q, hq, h1⟩ | ⟨-, -, -, -, h1⟩ | ⟨-, -, -, h1⟩
    · rw [h1]; simp [pushed, fragments, httpClient.sentBodies, httpClient.dataRequests]
    · rw [h1, hq]; simp [pushed, fragments, httpClient.sentBodies, httpClient.dataRequests]
    · rw [h1, hq, sendData_sentBodies, (sendData_frame Do _ _).2.2.2.1]
      simp [pushed, fragments, httpClient.sentBodies, httpClient.dataRequests]
    · rw [h1, sendData_sentBodies, (sendData_frame Do _ _).2.2.2.1]
      simp [pushed, fragments, httpClient.sentBodies, httpClient.dataRequests]
    · rw [h1]; simp [pushed, fragments]
    · rw [h1]; simp [pushed, fragments, httpClient.sentBodies, httpClient.dataRequests]
  · subst he
    rcases recvLoopStep_cases _ _ _ _ hr with ⟨-, -, q, -, h1⟩ | ⟨-, -, res, q, -, h1⟩
      | ⟨-, -, h1⟩
    · rw [h1]; simp [pushed, fragments, httpClient.sentBodies, httpClient.dataRequests]
    · rw [h1]; simp [pushed, fragments, httpClient.sentBodies, httpClient.dataRequests]
    · rw [h1]
      unfold httpClient.armNop
      split
      · split <;> simp [pushed, fragments, httpClient.sentBodies, httpClient.dataRequests]
      · simp [pushed, fragments]
  · subst he
    rw [hs]
    simp [pushed, fragments, httpClient.pushTCPRequest, httpClient.sentBodies,
      httpClient.dataRequests]
  · subst he
    obtain ⟨q, h1, -⟩ := popTCPResponse_cases _ _ _ hpop
    rw [h1]; simp [pushed, fragments, httpClient.sentBodies, httpClient.dataRequests]
  · subst he
    obtain ⟨-, h1⟩ := destroy_cases _ _ hd
    rw [h1]; simp [pushed, fragments, httpClient.sentBodies, httpClient.dataRequests]

theorem pushed_cons (e : Event) (es : List Event) :
    fragments (pushed (e :: es)) = fragments (pushed [e]) ++ fragments (pushed es) := by
  cases e with
  | push dn => cases dn <;> simp [pushed, fragments]
  | _ => simp [pushed, fragments]

theorem fragments_run (Do : Transport) (evs : List Event) (s s1 : Sys)
    (h : Sys.run Do evs s = some s1) :
    s1.self.sentBodies ++ fragments s1.self.sendQ
      = s.self.sentBodies ++ fragments s.self.sendQ ++ fragments (pushed evs) := by
  induction evs generalizing s with
  | nil =>
      simp only [Sys.run, Option.some.injEq] at h
      subst h
      simp [pushed, fragments]
  | cons e es ih =>
      unfold Sys.run at h
      split at h
      · rename_i s2 heq
        rw [pushed_cons e es, ih s2 h, fragments_step Do e s s2 heq]
        simp only [List.append_assoc]
      · simp at h

/-- C1. In every execution of a freshly created session, whatever the transport answers,
the data request issued at position `k` (counted from 1, idle polls and fragment-bearing
requests together) carries sequence number `k`, as long as `k` is an `int64`; and the
bodies of the fragment-bearing requests, followed by the fragments still waiting in
`sendQ`, are the non-nil fragments pushed, in the order they were pushed. -/
theorem send_pipeline_sequence (Do : Transport) (now : Int) (host dest : String)
    (evs : List Event) (s0 s : Sys)
    (hstart : Sys.start Do now host dest = some s0)
    (hrun : Sys.run Do evs s0 = some s) :
    (∀ (k : Nat) (r : Request), s.self.dataRequests[k]? = some r → (k : Int) + 1 ≤ maxInt64 →
        r.seq = some ((k : Int) + 1))
    ∧ s.self.sentBodies ++ fragments s.self.sendQ = fragments (pushed evs) := by
  have hinv : s.self.seqInv :=
    Sys.run_induct Do httpClient.seqInv (seqInv_step Do) evs s0 s hrun
      (seqInv_start Do now host dest s0 hstart)
  constructor
  · intro k r hk hle
    rw [hinv.2 k r hk, wrap64_id _ (by omega) hle]
  · have hf := start_fields Do now host dest s0 hstart
    have hd := start_dataRequests Do now host dest s0 hstart
    rw [fragments_run Do evs s0 s hrun]
    simp [httpClient.sentBodies, hd, hf.2.2.2.2.2.1, fragments]

/-- C1, at a concrete input: the schedule `demoEvents` of a session created against
`okTransport`. -/
theorem send_pipeline_sequence_witness :
    (∀ (k : Nat) (r : Request), demoEnd.self.dataRequests[k]? = some r →
        (k : Int) + 1 ≤ maxInt64 → r.seq = some ((k : Int) + 1))
    ∧ demoEnd.self.sentBodies ++ fragments demoEnd.self.sendQ
        = fragments (pushed demoEvents) :=
  send_pipeline_sequence okTransport 7 "proxy:80" "10.0.0.5:22" demoEvents demoStart demoEnd
    rfl rfl

theorem filterMap_first {α β : Type} (g : α → Option β) (l : List α) (k : Nat) (r : α)
    (b : β) (hk : l[k]? = some r) (hb : g r = some b)
    (hfirst : ∀ (j : Nat) (x : α), j < k → l[j]? = some x → g x = none) :
    ∃ t, l.filterMap g = b :: t := by
  induction l generalizing k with
  | nil => simp at hk
  | cons a l ih =>
      cases k with
      | zero =>
          simp only [List.getElem?_cons_zero, Option.some.injEq] at hk
          subst hk
          exact ⟨l.filterMap g, by simp [List.filterMap_cons, hb]⟩
      | succ n =>
          simp only [List.getElem?_cons_succ] at hk
          have ha : g a = none := hfirst 0 a (Nat.succ_pos n) (by simp)
          obtain ⟨t, ht⟩ := ih n hk (fun j x hj hx =>
            hfirst (j + 1) x (Nat.succ_lt_succ hj) (by simpa using hx))
          exact ⟨t, by simp [List.filterMap_cons, ha, ht]⟩

/-- C2, refuted as stated: with `demoFragment` pushed first and both the pre-armed trigger
and the fragment ready, the `select` takes the trigger; the idle poll gets sequence
number 1 and the request that carries the fragment gets sequence number 2. -/
theorem first_fragment_not_seq_one :
    Sys.start okTransport 7 "proxy:80" "10.0.0.5:22" = some demoStart
    ∧ Sys.run okTransport demoEvents demoStart = some demoEnd
    ∧ fragments (pushed demoEvents) = [demoFragment.data]
    ∧ demoEnd.self.dataRequests.map (fun r => (r.seq, r.body))
        = [(some 1, none), (some 2, some demoFragment.data)] := by
  refine ⟨rfl, rfl, rfl, ?_⟩
  decide

/-- C2, amended. In every execution of a successfully created session in which `f` is
the first fragment pushed, the first fragment-bearing data request carries the bytes of
`f`, and its sequence number is `k + 1`, where `k` is the number of idle polls issued
before it (as long as `k + 1` is an `int64`): it is 1 exactly when the `select` takes the
fragment before any trigger, and more than 1 when it takes the pre-armed trigger first. -/
theorem first_fragment_request (Do : Transport) (now : Int) (host dest : String)
    (evs : List Event) (s0 s : Sys)
    (hstart : Sys.start Do now host dest = some s0)
    (hrun : Sys.run Do evs s0 = some s)
    (f : dataBlock) (rest : List (List Byte))
    (hf : fragments (pushed evs) = f.data :: rest)
    (k : Nat) (r : Request)
    (hk : s.self.dataRequests[k]? = some r)
    (hbody : r.body ≠ none)
    (hfirst : ∀ (j : Nat) (x : Request), j < k → s.self.dataRequests[j]? = some x →
        x.body = none)
    (hrange : (k : Int) + 1 ≤ maxInt64) :
    r.body = some f.data ∧ r.seq = some ((k : Int) + 1)
      ∧ (r.seq = some 1 ↔ k = 0) := by
  have hinv : s.self.seqInv :=
    Sys.run_induct Do httpClient.seqInv (seqInv_step Do) evs s0 s hrun
      (seqInv_start Do now host dest s0 hstart)
  have hseq : r.seq = some ((k : Int) + 1) := by
    rw [hinv.2 k r hk, wrap64_id _ (by omega) hrange]
  have hfr := fragments_run Do evs s0 s hrun
  have hfld := start_fields Do now host dest s0 hstart
  have hd := start_dataRequests Do now host dest s0 hstart
  simp only [httpClient.sentBodies, hd, hfld.2.2.2.2.2.1, fragments, List.filterMap_nil,
    List.nil_append] at hfr
  obtain ⟨b, hb⟩ := Option.ne_none_iff_exists'.mp hbody
  obtain ⟨t, ht⟩ := filterMap_first (fun x : Request => x.body) s.self.dataRequests k r b hk hb
    hfirst
  refine ⟨?_, hseq, ?_⟩
  · rw [ht] at hfr
    have hf2 : List.filterMap (fun dn : Option dataBlock => Option.map (fun d => d.data) dn)
        (pushed evs) = f.data :: rest := hf
    rw [hf2] at hfr
    simp only [List.cons_append, List.cons.injEq] at hfr
    rw [hb, hfr.1]
  · rw [hseq]
    simp only [Option.some.injEq]
    omega

/-- C2 amended, at a concrete input: in the schedule `demoEvents` the fragment is carried
by the request at position 1, after one idle poll. -/
theorem first_fragment_request_witness :
    demoEnd.self.dataRequests[1]?
        = some { Host := "proxy:80", Path := ReqPath.QP_DATA, connKey := 7, addr := none,
                 seq := some 2, body := some [0x41, 0x42] }
    ∧ (some [0x41, 0x42] : Option (List Byte)) = some demoFragment.data
    ∧ (some (2 : Int)) = some (((1 : Nat) : Int) + 1) :=
  have h := first_fragment_request okTransport 7 "proxy:80" "10.0.0.5:22" demoEvents
    demoStart demoEnd rfl rfl demoFragment [] rfl 1
    { Host := "proxy:80", Path := ReqPath.QP_DATA, connKey := 7, addr := none,
      seq := some 2, body := some [0x41, 0x42] }
    (by decide) (by decide)
    (fun j x hj hx => by
      have hj0 : j = 0 := by omega
      subst hj0
      have hx0 : demoEnd.self.dataRequests[0]?
          = some { Host := "proxy:80", Path := ReqPath.QP_DATA, connKey := 7, addr := none,
                   seq := some 1, body := none } := by decide
      rw [hx0] at hx
      simp only [Option.some.injEq] at hx
      rw [← hx])
    (by decide)
  ⟨by decide, h.1, h.2.1⟩

/-! ## The receive pipeline -/

/-- C5, refuted as stated: `recvLoop` takes the nil sentinel from `respQ` and returns, and
`recvQ` is what it was, not what it was with a nil appended. -/
theorem recvLoop_no_sentinel :
    (httpClient.recvLoopStep (recvPC.range, demoSentinel)).map (fun p => (p.1, p.2.recvQ))
        = some (recvPC.done, demoSentinel.recvQ)
    ∧ demoSentinel.recvQ ≠ demoSentinel.recvQ ++ [none] := by
  decide

/-- C5, amended. When `recvLoop` takes the nil sentinel from `respQ` it ends its loop and
returns, and it leaves `recvQ` unchanged: every step of `recvLoop` appends only non-nil
blocks to `recvQ`, and once returned it takes no further step. -/
theorem recvLoop_sentinel (self : httpClient) (q : List (Option Response))
    (h : self.respQ = none :: q) :
    httpClient.recvLoopStep (recvPC.range, self) = some (recvPC.done, { self with respQ := q })
    ∧ ({ self with respQ := q } : httpClient).recvQ = self.recvQ
    ∧ (∀ x, httpClient.recvLoopStep (recvPC.done, x) = none)
    ∧ (∀ pc pc1 x x1, httpClient.recvLoopStep (pc, x) = some (pc1, x1) →
        ∃ bs : List dataBlock, x1.recvQ = x.recvQ ++ bs.map some) := by
  refine ⟨?_, rfl, fun x => rfl, ?_⟩
  · unfold httpClient.recvLoopStep
    simp only [h]
  · intro pc pc1 x x1 hx
    rcases recvLoopStep_cases _ _ _ _ hx with ⟨-, -, q, -, h1⟩ | ⟨-, -, res, q, -, h1⟩
      | ⟨-, -, h1⟩
    · exact ⟨[], by rw [h1]; simp⟩
    · exact ⟨readBody res.Body, by rw [h1]⟩
    · refine ⟨[], ?_⟩
      rw [h1]
      unfold httpClient.armNop
      split
      · split <;> simp
      · simp

/-- C5 amended, at a concrete input: the session `demoSentinel`. -/
theorem recvLoop_sentinel_witness :
    httpClient.recvLoopStep (recvPC.range, demoSentinel)
      = some (recvPC.done, { demoSentinel with respQ := [] }) :=
  (recvLoop_sentinel demoSentinel [] rfl).1

theorem readBody_script (pre : List ReadResult) (last : ReadResult)
    (hpre : ∀ r ∈ pre, r.err = none) (hlast : last.err ≠ none) :
    readBody (pre ++ [last])
      = ((pre ++ [last]).filter (fun r => decide (0 < r.data.length))).map
          (fun r => ({ data := r.data } : dataBlock)) := by
  induction pre with
  | nil =>
      obtain ⟨e, he⟩ := Option.ne_none_iff_exists'.mp hlast
      by_cases hl : 0 < last.data.length
      · simp [readBody, he, hl]
      · simp [readBody, he, hl]
  | cons a pre ih =>
      have ha : a.err = none := hpre a (List.mem_cons_self a pre)
      have ih2 := ih (fun r hr => hpre r (List.mem_cons_of_mem a hr))
      by_cases hl : 0 < a.data.length
      · rw [List.cons_append, readBody]
        simp only [ha, gt_iff_lt, hl, if_true, List.singleton_append, ih2]
        simp [List.filter_cons, hl]
      · rw [List.cons_append, readBody]
        simp only [ha, gt_iff_lt, hl, if_false, List.nil_append, ih2]
        simp [List.filter_cons, hl]

theorem flatten_filter_pos (L : List (List Byte)) :
    (L.filter (fun d => decide (0 < d.length))).flatten = L.flatten := by
  induction L with
  | nil => rfl
  | cons a L ih =>
      by_cases h : 0 < a.length
      · simp [List.filter_cons, h, ih]
      · have : a = [] := by
          cases a with
          | nil => rfl
          | cons x t => simp at h
        simp [List.filter_cons, this, ih]

theorem recvLoop_responses (Do : Transport) (rs : List Response)
    (rest : List (Option Response)) (s : Sys)
    (hpc : s.recv = recvPC.range) (hq : s.self.respQ = rs.map some ++ rest) :
    ∃ s1, Sys.run Do (List.replicate (2 * rs.length) Event.receive) s = some s1
      ∧ s1.recv = recvPC.range ∧ s1.self.respQ = rest
      ∧ s1.self.recvQ
          = s.self.recvQ ++ ((rs.map (fun r => readBody r.Body)).flatten).map some := by
  induction rs generalizing s with
  | nil =>
      refine ⟨s, rfl, hpc, ?_, ?_⟩
      · simpa using hq
      · simp
  | cons r rs ih =>
      have hlen : 2 * (r :: rs).length = (2 * rs.length + 1) + 1 := by
        simp only [List.length_cons]; omega
      rw [hlen, List.replicate_succ, List.replicate_succ]
      simp only [List.map_cons, List.cons_append] at hq
      have h1 : ∃ mid : httpClient,
          Sys.step Do Event.receive s = some ⟨mid, s.proc, recvPC.arm⟩
            ∧ mid.respQ = rs.map some ++ rest
            ∧ mid.recvQ = s.self.recvQ ++ (readBody r.Body).map some := by
        refine ⟨{ s.self with respQ := rs.map some ++ rest,
                              recvQ := s.self.recvQ ++ (readBody r.Body).map some },
          ?_, rfl, rfl⟩
        simp only [Sys.step, hpc, httpClient.recvLoopStep, hq]
      obtain ⟨mid, hs1, hmq, hmr⟩ := h1
      have h2 : Sys.step Do Event.receive ⟨mid, s.proc, recvPC.arm⟩
          = some ⟨mid.armNop, s.proc, recvPC.range⟩ := by
        simp only [Sys.step, httpClient.recvLoopStep]
      have harm : mid.armNop.respQ = mid.respQ ∧ mid.armNop.recvQ = mid.recvQ := by
        simp only [httpClient.armNop]
        split
        · split <;> exact ⟨rfl, rfl⟩
        · exact ⟨rfl, rfl⟩
      obtain ⟨s1, hr, hp1, hq1, hrq⟩ := ih ⟨mid.armNop, s.proc, recvPC.range⟩ rfl
        (by rw [harm.1, hmq])
      refine ⟨s1, ?_, hp1, hq1, ?_⟩
      · simp only [Sys.run, hs1, h2]
        exact hr
      · rw [hrq, harm.2, hmr]
        simp only [List.map_cons, List.flatten_cons, List.map_append, List.append_assoc]

/-- C6. For a response body whose reads return chunks of at most `DataBlockSize` bytes,
with a nil error for all but the last read and a non-nil error (EOF or other) for the last,
the blocks `recvLoop` sends on `recvQ` are, in order, the non-empty chunks read: each has
between 1 and `DataBlockSize` bytes, and their concatenation is the concatenation of all
the bytes read, the last read included; `recvLoop` appends them at the tail of `recvQ`
when it takes the response, and for responses taken one after the other the blocks
appear in `recvQ` in the order the responses were in `respQ`. -/
theorem recv_blocks (Do : Transport) (DataBlockSize : Nat) (pre : List ReadResult)
    (last : ReadResult)
    (hpre : ∀ r ∈ pre, r.err = none) (hlast : last.err ≠ none)
    (hsize : ∀ r ∈ pre ++ [last], r.data.length ≤ DataBlockSize) :
    (readBody (pre ++ [last])).map (fun b => b.data)
        = ((pre ++ [last]).map (fun r => r.data)).filter (fun d => decide (0 < d.length))
    ∧ (∀ b ∈ readBody (pre ++ [last]), 1 ≤ b.data.length ∧ b.data.length ≤ DataBlockSize)
    ∧ ((readBody (pre ++ [last])).map (fun b => b.data)).flatten
        = ((pre ++ [last]).map (fun r => r.data)).flatten
    ∧ (∀ (self : httpClient) (res : Response) (q : List (Option Response)),
        self.respQ = some res :: q → res.Body = pre ++ [last] →
        httpClient.recvLoopStep (recvPC.range, self)
          = some (recvPC.arm,
              { self with respQ := q,
                          recvQ := self.recvQ ++ (readBody (pre ++ [last])).map some }))
    ∧ (∀ (rs : List Response) (rest : List (Option Response)) (s : Sys),
        s.recv = recvPC.range → s.self.respQ = rs.map some ++ rest →
        ∃ s1, Sys.run Do (List.replicate (2 * rs.length) Event.receive) s = some s1
          ∧ s1.self.respQ = rest
          ∧ s1.self.recvQ
              = s.self.recvQ ++ ((rs.map (fun r => readBody r.Body)).flatten).map some) := by
  have hmap : (readBody (pre ++ [last])).map (fun b => b.data)
      = ((pre ++ [last]).map (fun r => r.data)).filter (fun d => decide (0 < d.length)) := by
    rw [readBody_script pre last hpre hlast, List.map_map, List.filter_map]
    rfl
  refine ⟨hmap, ?_, ?_, ?_, ?_⟩
  · intro b hb
    rw [readBody_script pre last hpre hlast] at hb
    obtain ⟨r, hr, hrb⟩ := List.mem_map.mp hb
    obtain ⟨hmem, hpos⟩ := List.mem_filter.mp hr
    subst hrb
    have hp : 0 < r.data.length := of_decide_eq_true hpos
    exact ⟨hp, hsize r hmem⟩
  · rw [hmap, flatten_filter_pos]
  · intro self res q hq hbody
    unfold httpClient.recvLoopStep
    simp only [hq, hbody]
  · intro rs rest s hpc hq
    obtain ⟨s1, h1, -, h3, h4⟩ := recvLoop_responses Do rs rest s hpc hq
    exact ⟨s1, h1, h3, h4⟩

/-- C6, at a concrete input: a body read as `[1, 2]`, then nothing, then `[3]` with EOF,
and `DataBlockSize = 4`. -/
theorem recv_blocks_witness :
    (readBody (demoReads ++ [demoLastRead])).map (fun b => b.data)
      = ((demoReads ++ [demoLastRead]).map (fun r => r.data)).filter
          (fun d => decide (0 < d.length)) :=
  (recv_blocks okTransport 4 demoReads demoLastRead
    (by decide) (by decide) (by decide)).1

/-- C4, at concrete inputs: a transport that answers 200 and one that answers 502. -/
theorem establishment_iff_witness :
    (newHTTPClient okTransport 7 "proxy:80" "10.0.0.5:22").hc ≠ none
    ∧ (newHTTPClient refuseTransport 7 "proxy:80" "10.0.0.5:22").started = [] :=
  ⟨(establishment_iff okTransport 7 "proxy:80" "10.0.0.5:22"
      (httpClient.fresh 7 "proxy:80" "10.0.0.5:22")).2.2.1.mpr (by decide),
   (establishment_iff refuseTransport 7 "proxy:80" "10.0.0.5:22"
      (httpClient.fresh 7 "proxy:80" "10.0.0.5:22")).2.2.2.2 (by decide)⟩

/-! ## Liveness flag, shutdown and the caller -/

theorem alive_false_step (Do : Transport) (e : Event) (s s1 : Sys)
    (h : Sys.step Do e s = some s1) (hP : s.self.alive = false) : s1.self.alive = false :=
  Sys.step_induct Do (fun x => x.alive = false) (fun _ _ hp => hp) (fun _ _ hp => hp)
    (fun _ _ hp => hp) (fun _ _ hp => hp) (fun _ _ => rfl)
    (fun self _ ha hp => absurd ha (by rw [hp]; decide)) e s s1 h hP

theorem closed_step (Do : Transport) (e : Event) (s s1 : Sys)
    (h : Sys.step Do e s = some s1) (hP : s.self.sendQsyncClosed = true) :
    s1.self.sendQsyncClosed = true :=
  Sys.step_induct Do (fun x => x.sendQsyncClosed = true) (fun _ _ hp => hp) (fun _ _ hp => hp)
    (fun _ _ hp => hp) (fun _ _ hp => hp) (fun _ _ => rfl)
    (fun self dn _ hp => by
      show (self.sendData Do dn).sendQsyncClosed = true
      rw [(sendData_frame Do self dn).2.2.2.2.2.2]; exact hp) e s s1 h hP

theorem open_while_alive_step (Do : Transport) (e : Event) (s s1 : Sys)
    (h : Sys.step Do e s = some s1)
    (hP : s.self.alive = true → s.self.sendQsyncClosed = false) :
    s1.self.alive = true → s1.self.sendQsyncClosed = false :=
  Sys.step_induct Do (fun x => x.alive = true → x.sendQsyncClosed = false)
    (fun _ _ hp => hp) (fun _ _ hp => hp) (fun _ _ hp => hp) (fun _ _ hp => hp)
    (fun _ _ ha => absurd ha Bool.false_ne_true)
    (fun self dn ha hp _ => by
      rw [(sendData_frame Do self dn).2.2.2.2.2.2]; exact hp ha) e s s1 h hP

theorem popTCPResponse_dead (self : httpClient) (h : self.alive = false) :
    self.popTCPResponse
      = some (self.recvQ.headD none, { self with recvQ := self.recvQ.tail }) := by
  obtain ⟨hc, host, dest, seq, connKey, sendQ, closed, sendNop, respQ, recvQ, alive⟩ := self
  simp only at h
  subst h
  cases recvQ <;> simp [httpClient.popTCPResponse, httpClient.isAlive]

/-- C7. On a live session reached by any execution, `destroy` runs to its end; after it
`isAlive` is false, the shutdown signal `sendQsync` is closed and a nil sentinel was
appended to `recvQ`; and in every state any later execution reaches, `isAlive` is still
false, the signal is still closed, and `popTCPResponse` returns without blocking: the head
of `recvQ` when the queue is non-empty and nil when it is empty. -/
theorem destroy_releases (Do : Transport) (now : Int) (host dest : String)
    (evs : List Event) (s0 s : Sys)
    (hstart : Sys.start Do now host dest = some s0)
    (hrun : Sys.run Do evs s0 = some s)
    (hlive : s.self.alive = true) :
    ∃ d, s.self.destroy = some d
      ∧ d.isAlive = false ∧ d.sendQsyncClosed = true ∧ d.recvQ = s.self.recvQ ++ [none]
      ∧ ∀ (evs2 : List Event) (s2 : Sys),
          Sys.run Do evs2 { s with self := d } = some s2 →
          s2.self.isAlive = false ∧ s2.self.sendQsyncClosed = true
            ∧ s2.self.popTCPResponse
                = some (s2.self.recvQ.headD none, { s2.self with recvQ := s2.self.recvQ.tail }) := by
  have hopen : s.self.alive = true → s.self.sendQsyncClosed = false :=
    Sys.run_induct Do (fun x => x.alive = true → x.sendQsyncClosed = false)
      (open_while_alive_step Do) evs s0 s hrun
      (fun _ => (start_fields Do now host dest s0 hstart).2.2.2.2.2.2.2.2.2.1)
  have hc := hopen hlive
  refine ⟨{ s.self with alive := false, sendQsyncClosed := true,
                        recvQ := s.self.recvQ ++ [none] }, ?_, rfl, rfl, rfl, ?_⟩
  · unfold httpClient.destroy
    simp [hc]
  · intro evs2 s2 h2
    have ha : s2.self.alive = false :=
      Sys.run_induct Do (fun x => x.alive = false) (alive_false_step Do) evs2 _ s2 h2 rfl
    have hcl : s2.self.sendQsyncClosed = true :=
      Sys.run_induct Do (fun x => x.sendQsyncClosed = true) (closed_step Do) evs2 _ s2 h2 rfl
    exact ⟨ha, hcl, popTCPResponse_dead s2.self ha⟩

/-- C7, at a concrete input: the session at the end of `demoEvents`. -/
theorem destroy_releases_witness :
    ∃ d, demoEnd.self.destroy = some d
      ∧ d.isAlive = false ∧ d.sendQsyncClosed = true ∧ d.recvQ = demoEnd.self.recvQ ++ [none]
      ∧ ∀ (evs2 : List Event) (s2 : Sys),
          Sys.run okTransport evs2 { demoEnd with self := d } = some s2 →
          s2.self.isAlive = false ∧ s2.self.sendQsyncClosed = true
            ∧ s2.self.popTCPResponse
                = some (s2.self.recvQ.headD none, { s2.self with recvQ := s2.self.recvQ.tail }) :=
  destroy_releases okTransport 7 "proxy:80" "10.0.0.5:22" demoEvents demoStart demoEnd rfl rfl
    (by decide)

/-- What one step does to the request log, the counter and the trigger slot: it makes no
request (and then either leaves the slot alone or is a successful arming), or it sends a
fragment, or it takes the trigger and sends an idle poll. -/
theorem Sys.step_frame (Do : Transport) (e : Event) (s s1 : Sys)
    (h : Sys.step Do e s = some s1) :
    (s1.self.hc = s.self.hc ∧ s1.self.seq = s.self.seq
        ∧ ((s1.self.sendNop = s.self.sendNop ∧ Sys.arms e s = false)
          ∨ (s1.self.sendNop = s.self.sendNop ++ [none] ∧ s.self.sendNop.length < 1
              ∧ Sys.arms e s = true)))
    ∨ (∃ (d : dataBlock) (mid : httpClient), mid.hc = s.self.hc ∧ mid.seq = s.self.seq
        ∧ mid.sendNop = s.self.sendNop
        ∧ s1.self = mid.sendData Do (some d) ∧ Sys.arms e s = false)
    ∨ (∃ (x : Option dataBlock) (q : List (Option dataBlock)) (mid : httpClient),
        s.self.sendNop = x :: q ∧ mid.sendNop = q ∧ mid.hc = s.self.hc
        ∧ mid.seq = s.self.seq ∧ s1.self = mid.sendData Do none ∧ Sys.arms e s = false) := by
  rcases Sys.step_cases Do e s s1 h with ⟨c, he, -, hp⟩ | ⟨he, -, hr⟩ | ⟨dn, he, -, -, hs⟩
    | ⟨he, -, -, dn, hpop⟩ | ⟨he, -, -, hd⟩
  · subst he
    rcases processLoopStep_cases Do c _ _ _ _ hp with ⟨hpc, -, hl, h1⟩ | ⟨hpc, -, -, q, hq, h1⟩
      | ⟨hpc, -, ha, d, q, hq, h1⟩ | ⟨hpc, -, ha, x, q, hq, h1⟩ | ⟨hpc, -, -, -, h1⟩
      | ⟨hpc, -, -, h1⟩
    · left
      rw [h1]
      exact ⟨rfl, rfl, Or.inr ⟨rfl, hl, by simp [Sys.arms, hpc, hl]⟩⟩
    · left
      rw [h1]
      exact ⟨rfl, rfl, Or.inl ⟨rfl, by simp [Sys.arms, hpc]⟩⟩
    · right; left
      exact ⟨d, { s.self with sendQ := q }, rfl, rfl, rfl, h1, by simp [Sys.arms, hpc]⟩
    · right; right
      exact ⟨x, q, { s.self with sendNop := q }, hq, rfl, rfl, rfl, h1,
        by simp [Sys.arms, hpc]⟩
    · left
      rw [h1]
      exact ⟨rfl, rfl, Or.inl ⟨rfl, by simp [Sys.arms, hpc]⟩⟩
    · left
      rw [h1]
      exact ⟨rfl, rfl, Or.inl ⟨rfl, by simp [Sys.arms, hpc]⟩⟩
  · subst he
    left
    rcases recvLoopStep_cases _ _ _ _ hr with ⟨hpc, -, q, -, h1⟩ | ⟨hpc, -, res, q, -, h1⟩
      | ⟨hpc, -, h1⟩
    · rw [h1]
      exact ⟨rfl, rfl, Or.inl ⟨rfl, by simp [Sys.arms, hpc]⟩⟩
    · rw [h1]
      exact ⟨rfl, rfl, Or.inl ⟨rfl, by simp [Sys.arms, hpc]⟩⟩
    · rw [h1]
      unfold httpClient.armNop
      by_cases hq : 0 = s.self.respQ.length
      · by_cases hl : s.self.sendNop.length < 1
        · rw [if_pos hq, if_pos hl]
          exact ⟨rfl, rfl, Or.inr ⟨rfl, hl, by simp [Sys.arms, hpc, hl, hq.symm]⟩⟩
        · rw [if_pos hq, if_neg hl]
          exact ⟨rfl, rfl, Or.inl ⟨rfl, by simp [Sys.arms, hpc, hl]⟩⟩
      · rw [if_neg hq]
        refine ⟨rfl, rfl, Or.inl ⟨rfl, ?_⟩⟩
        have hq2 : ¬ s.self.respQ.length = 0 := fun e0 => hq e0.symm
        simp [Sys.arms, hpc, hq2]
  · subst he
    left
    rw [hs]
    exact ⟨rfl, rfl, Or.inl ⟨rfl, rfl⟩⟩
  · subst he
    left
    obtain ⟨q, h1, -⟩ := popTCPResponse_cases _ _ _ hpop
    rw [h1]
    exact ⟨rfl, rfl, Or.inl ⟨rfl, rfl⟩⟩
  · subst he
    left
    obtain ⟨-, h1⟩ := destroy_cases _ _ hd
    rw [h1]
    exact ⟨rfl, rfl, Or.inl ⟨rfl, rfl⟩⟩

theorem step_seq (Do : Transport) (e : Event) (s s1 : Sys)
    (h : Sys.step Do e s = some s1) :
    s1.self.seq = s.self.seq ∨ s1.self.seq = wrap64 (s.self.seq + 1) := by
  rcases Sys.step_frame Do e s s1 h with ⟨-, h2, -⟩ | ⟨d, mid, -, h2, -, h4, -⟩
    | ⟨x, q, mid, -, -, -, h2, h4, -⟩
  · exact Or.inl h2
  · right; rw [h4, sendData_seq, h2]
  · right; rw [h4, sendData_seq, h2]

theorem step_sendNop_le (Do : Transport) (e : Event) (s s1 : Sys)
    (h : Sys.step Do e s = some s1) (hle : s.self.sendNop.length ≤ 1) :
    s1.self.sendNop.length ≤ 1 := by
  rcases Sys.step_frame Do e s s1 h with ⟨-, -, ⟨h3, -⟩ | ⟨h3, hl, -⟩⟩
    | ⟨d, mid, -, -, h3, h4, -⟩ | ⟨x, q, mid, hq, h3, -, -, h4, -⟩
  · rw [h3]; exact hle
  · rw [h3, List.length_append]; simp only [List.length_singleton]; omega
  · rw [h4, (sendData_frame Do mid _).2.2.2.2.1, h3]; exact hle
  · rw [h4, (sendData_frame Do mid _).2.2.2.2.1, h3]
    rw [hq, List.length_cons] at hle
    omega

theorem polls_of_hc (a b : httpClient) (h : a.hc = b.hc) : a.polls = b.polls := by
  unfold httpClient.polls httpClient.dataRequests
  rw [h]

theorem step_polls (Do : Transport) (e : Event) (s s1 : Sys)
    (h : Sys.step Do e s = some s1) (harm : Sys.arms e s = false) :
    s1.self.polls + s1.self.sendNop.length = s.self.polls + s.self.sendNop.length := by
  rcases Sys.step_frame Do e s s1 h with ⟨h1, -, ⟨h3, -⟩ | ⟨-, -, ha⟩⟩
    | ⟨d, mid, h1, -, h3, h4, -⟩ | ⟨x, q, mid, hq, h3, h1, -, h4, -⟩
  · rw [polls_of_hc _ _ h1, h3]
  · rw [harm] at ha; exact absurd ha Bool.false_ne_true
  · rw [h4, sendData_polls, (sendData_frame Do mid _).2.2.2.2.1, h3, polls_of_hc _ _ h1]
    simp
  · rw [h4, sendData_polls, (sendData_frame Do mid _).2.2.2.2.1, h3, polls_of_hc _ _ h1, hq]
    simp only [if_true, List.length_cons]
    omega

theorem run_polls (Do : Transport) (evs : List Event) (s s1 : Sys)
    (h : Sys.run Do evs s = some s1) (harm : Sys.noArm Do evs s = true) :
    s1.self.polls + s1.self.sendNop.length = s.self.polls + s.self.sendNop.length := by
  induction evs generalizing s with
  | nil =>
      simp only [Sys.run, Option.some.injEq] at h
      subst h
      rfl
  | cons e es ih =>
      unfold Sys.run at h
      unfold Sys.noArm at harm
      split at h
      · rename_i s2 heq
        simp only [heq, Bool.and_eq_true, Bool.not_eq_true'] at harm
        rw [ih s2 h harm.2, step_polls Do e s s2 heq harm.1]
      · simp at h

theorem sendNop_le_run (Do : Transport) (evs : List Event) (s s1 : Sys)
    (h : Sys.run Do evs s = some s1) (hle : s.self.sendNop.length ≤ 1) :
    s1.self.sendNop.length ≤ 1 := by
  induction evs generalizing s with
  | nil =>
      simp only [Sys.run, Option.some.injEq] at h
      subst h
      exact hle
  | cons e es ih =>
      unfold Sys.run at h
      split at h
      · rename_i s2 heq
        exact ih s2 h (step_sendNop_le Do e s s2 heq hle)
      · simp at h

theorem armNop_pending (x : httpClient) (h : x.sendNop ≠ []) : x.armNop = x := by
  unfold httpClient.armNop
  have hl : ¬ x.sendNop.length < 1 := by
    cases hq : x.sendNop with
    | nil => exact absurd hq h
    | cons a q => simp
  by_cases hq : 0 = x.respQ.length
  · rw [if_pos hq, if_neg hl]
  · rw [if_neg hq]

/-- C10. In every state an execution of a created session reaches, `sendNop` holds at most
one trigger. The arming of lines 195-200 leaves the state unchanged when `respQ` is not
empty, and leaves it unchanged, however many times it is attempted, when a trigger is
pending; with `respQ` and the slot empty it puts one trigger in the slot. In any
continuation in which no arming succeeds, at most one idle poll is issued: no more than
there were pending triggers. -/
theorem nop_single_slot (Do : Transport) (now : Int) (host dest : String)
    (evs : List Event) (s0 s : Sys)
    (hstart : Sys.start Do now host dest = some s0)
    (hrun : Sys.run Do evs s0 = some s) :
    s.self.sendNop.length ≤ 1
    ∧ (∀ x : httpClient, x.respQ ≠ [] → x.armNop = x)
    ∧ (∀ x : httpClient, x.sendNop ≠ [] → ∀ K : Nat, (httpClient.armNop^[K]) x = x)
    ∧ (∀ x : httpClient, x.respQ = [] → x.sendNop = [] →
        x.armNop = { x with sendNop := [none] })
    ∧ (∀ (evs2 : List Event) (s2 : Sys), Sys.run Do evs2 s = some s2 →
        Sys.noArm Do evs2 s = true →
        s2.self.polls ≤ s.self.polls + s.self.sendNop.length
          ∧ s2.self.polls ≤ s.self.polls + 1) := by
  have hle : s.self.sendNop.length ≤ 1 :=
    sendNop_le_run Do evs s0 s hrun
      (by rw [(start_fields Do now host dest s0 hstart).2.2.2.2.2.2.1]; simp)
  refine ⟨hle, ?_, ?_, ?_, ?_⟩
  · intro x hx
    unfold httpClient.armNop
    have : ¬ 0 = x.respQ.length := by
      cases hq : x.respQ with
      | nil => exact absurd hq hx
      | cons a q => simp
    rw [if_neg this]
  · intro x hx K
    induction K with
    | zero => rfl
    | succ n ih => rw [Function.iterate_succ_apply, armNop_pending x hx, ih]
  · intro x hr hn
    unfold httpClient.armNop
    simp [hr, hn]
  · intro evs2 s2 h2 harm
    have := run_polls Do evs2 s s2 h2 harm
    constructor <;> omega

/-- C10, at a concrete input: the schedule `demoEvents`, continued by the caller alone. -/
theorem nop_single_slot_witness :
    demoEnd.self.sendNop.length ≤ 1
    ∧ (∀ (evs2 : List Event) (s2 : Sys), Sys.run okTransport evs2 demoEnd = some s2 →
        Sys.noArm okTransport evs2 demoEnd = true →
        s2.self.polls ≤ demoEnd.self.polls + demoEnd.self.sendNop.length
          ∧ s2.self.polls ≤ demoEnd.self.polls + 1) :=
  have h := nop_single_slot okTransport 7 "proxy:80" "10.0.0.5:22" demoEvents demoStart
    demoEnd rfl rfl
  ⟨h.1, h.2.2.2.2⟩

theorem dead_run (Do : Transport) (evs : List Event) (s s1 : Sys)
    (h : Sys.run Do evs s = some s1) (hd : s.self.alive = false) :
    s1.self.alive = false ∧ s1.self.hc = s.self.hc ∧ s1.self.seq = s.self.seq :=
  Sys.run_induct Do
    (fun x => x.alive = false ∧ x.hc = s.self.hc ∧ x.seq = s.self.seq)
    (fun e a b hab hP =>
      Sys.step_induct Do (fun x => x.alive = false ∧ x.hc = s.self.hc ∧ x.seq = s.self.seq)
        (fun _ _ hp => hp) (fun _ _ hp => hp) (fun _ _ hp => hp) (fun _ _ hp => hp)
        (fun _ hp => ⟨rfl, hp.2⟩)
        (fun self _ ha hp => absurd ha (by rw [hp.1]; exact Bool.false_ne_true)) e a b hab hP)
    evs s s1 h ⟨hd, rfl, rfl⟩

theorem popN_dead (q r : List (Option dataBlock)) (x : httpClient)
    (hd : x.alive = false) (hq : x.recvQ = q ++ r) :
    httpClient.popN q.length x = some (q, { x with recvQ := r }) := by
  induction q generalizing x with
  | nil =>
      simp only [List.nil_append] at hq
      simp only [List.length_nil, httpClient.popN, Option.some.injEq, Prod.mk.injEq, true_and]
      rw [← hq]
  | cons a q ih =>
      simp only [List.length_cons, httpClient.popN]
      rw [popTCPResponse_dead x hd, hq]
      simp only [List.cons_append, List.headD_cons, List.tail_cons]
      rw [ih { x with recvQ := q ++ r } hd rfl]

theorem sendData_fails (Do : Transport) (x : httpClient) (dn : Option dataBlock)
    (hbad : ∀ res,
      Do x.hc (({ x with seq := wrap64 (x.seq + 1) }).dataRequest dn) = DoResult.resp res →
      res.StatusCode ≠ 200) :
    (x.sendData Do dn).alive = false := by
  unfold httpClient.sendData
  dsimp only
  split
  · rfl
  · rename_i res h
    have hs : StatusOK ≠ res.StatusCode := fun e => hbad res h (by rw [← e]; rfl)
    rw [if_pos hs]

theorem append_singleton_cancel (l : List Request) (a b : Request)
    (h : l ++ [a] = l ++ [b]) : a = b := by
  have := List.append_cancel_left h
  simpa using this

theorem ne_append_singleton (l : List Request) (a : Request) : l ≠ l ++ [a] := by
  intro h
  have := congrArg List.length h
  simp at this

/-- C8. When an iteration of `processLoop` calls `sendData` and the request fails (the
iteration adds request `r` to the log and the transport answers `r` with an error or a
status other than 200), `alive` is false and the goroutine is back at the loop head; from
there its only step, whatever case a `select` would take and whatever is queued, leaves
the loop, appends one nil to `respQ` and returns, after which it takes no step. In every
state any later execution reaches, the request log and `seq` are what they were at the
failure and `isAlive` is false; and there successive calls of `popTCPResponse` do not
block and return the entries of `recvQ` in FIFO order. -/
theorem send_failure_terminal (Do : Transport) (c : selectCase) (self0 self1 : httpClient)
    (pc1 : procPC) (r : Request)
    (hstep : httpClient.processLoopStep Do c (procPC.loop, self0) = some (pc1, self1))
    (hreq : self1.hc = self0.hc ++ [r])
    (hbad : ∀ res, Do self0.hc r = DoResult.resp res → res.StatusCode ≠ 200) :
    pc1 = procPC.loop ∧ self1.alive = false
    ∧ (∀ (c2 : selectCase) (x : httpClient), x.alive = false →
        httpClient.processLoopStep Do c2 (procPC.loop, x)
          = some (procPC.done, { x with respQ := x.respQ ++ [none] }))
    ∧ (∀ (c2 : selectCase) (x : httpClient),
        httpClient.processLoopStep Do c2 (procPC.done, x) = none)
    ∧ (∀ (evs : List Event) (recv : recvPC) (s2 : Sys),
        Sys.run Do evs { self := self1, proc := procPC.loop, recv := recv } = some s2 →
        s2.self.hc = self1.hc ∧ s2.self.seq = self1.seq ∧ s2.self.isAlive = false
          ∧ httpClient.popN s2.self.recvQ.length s2.self
              = some (s2.self.recvQ, { s2.self with recvQ := [] })) := by
  have hmain : pc1 = procPC.loop ∧ self1.alive = false := by
    rcases processLoopStep_cases Do c _ _ _ _ hstep with ⟨hpc, -⟩ | ⟨-, -, -, q, -, h1⟩
      | ⟨-, hp, -, d, q, -, h1⟩ | ⟨-, hp, -, x, q, -, h1⟩ | ⟨-, -, -, -, h1⟩ | ⟨-, -, -, h1⟩
    · cases hpc
    · rw [h1] at hreq
      exact absurd hreq (ne_append_singleton _ _)
    · refine ⟨hp, ?_⟩
      rw [h1, sendData_hc] at hreq
      have hr := append_singleton_cancel _ _ _ hreq
      rw [h1]
      exact sendData_fails Do _ _ (by rw [hr]; exact hbad)
    · refine ⟨hp, ?_⟩
      rw [h1, sendData_hc] at hreq
      have hr := append_singleton_cancel _ _ _ hreq
      rw [h1]
      exact sendData_fails Do _ _ (by rw [hr]; exact hbad)
    · rw [h1] at hreq
      exact absurd hreq (ne_append_singleton _ _)
    · rw [h1] at hreq
      exact absurd hreq (ne_append_singleton _ _)
  refine ⟨hmain.1, hmain.2, ?_, fun _ _ => rfl, ?_⟩
  · intro c2 x hx
    unfold httpClient.processLoopStep
    simp [httpClient.isAlive, hx]
  · intro evs recv s2 h2
    obtain ⟨ha, hh, hs⟩ := dead_run Do evs _ s2 h2 hmain.2
    refine ⟨hh, hs, ha, ?_⟩
    exact popN_dead s2.self.recvQ [] s2.self ha (by simp)

/-- C8, at a concrete input: `demoLoop` against `failTransport`; the fragment waiting in
`recvQ` is still returned by the next `popTCPResponse`. -/
theorem send_failure_terminal_witness :
    httpClient.processLoopStep failTransport selectCase.sendQ (procPC.loop, demoLoop)
        = some (procPC.loop, demoFailed)
    ∧ demoFailed.alive = false
    ∧ (∀ (c2 : selectCase),
        httpClient.processLoopStep failTransport c2 (procPC.loop, demoFailed)
          = some (procPC.done, { demoFailed with respQ := demoFailed.respQ ++ [none] }))
    ∧ httpClient.popN 1 demoFailed
        = some ([some { data := [0x9A, 0x9B] }], { demoFailed with recvQ := [] }) :=
  have h := send_failure_terminal failTransport selectCase.sendQ demoLoop demoFailed
    procPC.loop
    { Host := "proxy:80", Path := ReqPath.QP_DATA, connKey := 7, addr := none,
      seq := some 1, body := some [0x41, 0x42] }
    (by decide) (by decide) (fun res hres => by simp [failTransport] at hres)
  ⟨by decide, h.2.1, fun c2 => h.2.2.1 c2 demoFailed h.2.1,
   (h.2.2.2.2 [] recvPC.range { self := demoFailed, proc := procPC.loop, recv := recvPC.range }
      rfl).2.2.2⟩

theorem seq_le_run (Do : Transport) (evs : List Event) (s s1 : Sys)
    (h : Sys.run Do evs s = some s1) (hlo : -9223372036854775808 ≤ s.self.seq)
    (hhi : s.self.seq + (evs.length : Int) ≤ maxInt64) :
    s.self.seq ≤ s1.self.seq ∧ s1.self.seq ≤ s.self.seq + (evs.length : Int) := by
  induction evs generalizing s with
  | nil =>
      simp only [Sys.run, Option.some.injEq] at h
      subst h
      simp
  | cons e es ih =>
      unfold Sys.run at h
      split at h
      · rename_i s2 heq
        simp only [List.length_cons, Nat.cast_add, Nat.cast_one] at hhi ⊢
        have hes : (0 : Int) ≤ (es.length : Int) := Int.ofNat_nonneg _
        rcases step_seq Do e s s2 heq with h2 | h2
        · have := ih s2 h (by rw [h2]; exact hlo) (by rw [h2]; omega)
          rw [h2] at this
          constructor <;> omega
        · have hw : wrap64 (s.self.seq + 1) = s.self.seq + 1 :=
            wrap64_succ _ hlo (by unfold maxInt64 at hhi ⊢; omega)
          rw [hw] at h2
          have := ih s2 h (by rw [h2]; omega) (by rw [h2]; omega)
          rw [h2] at this
          constructor <;> omega
      · simp at h

/-- C9. The liveness flag is true in the state `newHTTPClient` builds before the handshake,
and no operation of the client turns it from false to true: `createConnection`,
`sendData`, every step of `processLoop` and of `recvLoop`, `pushTCPRequest`,
`popTCPResponse` and `destroy` all end with `alive = false` when they start with
`alive = false` (`isAlive` and `String` only read the state), and so does every
execution. `seq` never decreases while it stays within `int64`: `createConnection`
leaves it alone, every step leaves it alone or moves it to its `int64` successor, and
over an execution it grows by at most the number of steps. -/
theorem alive_monotone (Do : Transport) :
    (∀ (now : Int) (host dest : String), (httpClient.fresh now host dest).alive = true)
    ∧ (∀ self : httpClient, self.alive = false → (self.createConnection Do).1.alive = false)
    ∧ (∀ (self : httpClient) (dn : Option dataBlock), self.alive = false →
        (self.sendData Do dn).alive = false)
    ∧ (∀ (c : selectCase) (pc pc1 : procPC) (self self1 : httpClient),
        httpClient.processLoopStep Do c (pc, self) = some (pc1, self1) →
        self.alive = false → self1.alive = false)
    ∧ (∀ (pc pc1 : recvPC) (self self1 : httpClient),
        httpClient.recvLoopStep (pc, self) = some (pc1, self1) →
        self.alive = false → self1.alive = false)
    ∧ (∀ (self : httpClient) (dn : Option dataBlock), self.alive = false →
        (self.pushTCPRequest dn).alive = false)
    ∧ (∀ (self self1 : httpClient) (dn : Option dataBlock),
        self.popTCPResponse = some (dn, self1) → self.alive = false → self1.alive = false)
    ∧ (∀ self d : httpClient, self.destroy = some d → d.alive = false)
    ∧ (∀ self : httpClient, self.isAlive = self.alive)
    ∧ (∀ (evs : List Event) (s s1 : Sys), Sys.run Do evs s = some s1 →
        s.self.alive = false → s1.self.alive = false)
    ∧ (∀ self : httpClient, (self.createConnection Do).1.seq = self.seq)
    ∧ (∀ (self : httpClient) (dn : Option dataBlock),
        -9223372036854775808 ≤ self.seq → self.seq < maxInt64 →
        self.seq ≤ (self.sendData Do dn).seq)
    ∧ (∀ (e : Event) (s s1 : Sys), Sys.step Do e s = some s1 →
        -9223372036854775808 ≤ s.self.seq → s.self.seq < maxInt64 →
        s.self.seq ≤ s1.self.seq)
    ∧ (∀ (evs : List Event) (s s1 : Sys), Sys.run Do evs s = some s1 →
        -9223372036854775808 ≤ s.self.seq → s.self.seq + (evs.length : Int) ≤ maxInt64 →
        s.self.seq ≤ s1.self.seq) := by
  refine ⟨fun _ _ _ => rfl, ?_, sendData_alive_false Do, ?_, ?_, fun _ _ h => h, ?_, ?_,
    fun _ => rfl, ?_, fun self => (createConnection_frame Do self).2.2.2.1, ?_, ?_, ?_⟩
  · intro self h
    rw [createConnection_alive, h]
    rfl
  · intro c pc pc1 self self1 hstep h
    have := alive_false_step Do (Event.process c) ⟨self, pc, recvPC.range⟩
      ⟨self1, pc1, recvPC.range⟩ (by simp only [Sys.step, hstep]) h
    exact this
  · intro pc pc1 self self1 hstep h
    have := alive_false_step Do Event.receive ⟨self, procPC.start, pc⟩
      ⟨self1, procPC.start, pc1⟩ (by simp only [Sys.step, hstep]) h
    exact this
  · intro self self1 dn hp h
    obtain ⟨q, h1, -⟩ := popTCPResponse_cases _ _ _ hp
    rw [h1]
    exact h
  · intro self d hd
    rw [(destroy_cases _ _ hd).2]
  · intro evs s s1 hrun h
    exact Sys.run_induct Do (fun x => x.alive = false) (alive_false_step Do) evs s s1 hrun h
  · intro self dn hlo hhi
    rw [sendData_seq, wrap64_succ _ hlo hhi]
    omega
  · intro e s s1 hstep hlo hhi
    rcases step_seq Do e s s1 hstep with h2 | h2
    · rw [h2]
    · rw [h2, wrap64_succ _ hlo hhi]
      omega
  · intro evs s s1 hrun hlo hhi
    exact (seq_le_run Do evs s s1 hrun hlo hhi).1

/-- C9, at a concrete input: the dead session `demoFailed`, sent another request. -/
theorem alive_monotone_witness :
    demoFailed.alive = false ∧ (demoFailed.sendData failTransport none).alive = false :=
  ⟨by decide, (alive_monotone failTransport).2.2.1 demoFailed none (by decide)⟩
